import Mathlib

/-!
Shallow embedding of the import-job orchestrator of `x_community_notes`
(Go sources under `cmd/api/`: `handlers.go`, `main.go`, the download /
sanitize file, and the `import_history` schema), together with proofs of
the behavioural claims about it.

Conventions of the embedding:
* Byte streams (TSV payload files) are `List Nat` with `10` standing for
  the newline byte.
* Wall-clock instants are `Nat` milliseconds; Go's `time.Duration`
  comparisons translate to truncated `Nat` subtraction, which agrees with
  Go's signed comparison for the monotone clocks involved.
* Network probes are oracles `Nat → Bool` giving the outcome of the
  corresponding HTTP request (`true` = status 200, `false` = transport
  error or any other status, which the Go code treats identically).
* Database effects are explicit state passing over lists of
  `import_history` rows; best-effort writes that the code fires and
  forgets are modelled as the written values themselves.
-/

namespace XCN

/-- `status` column of `import_history`; the CHECK constraint in the
schema admits exactly these five values. -/
inductive JobStatus where
  | downloading
  | importing
  | completed
  | failed
  | idle
deriving DecidableEq, Repr

/-- A job is active when its status is `downloading` or `importing`
(the `WHERE status IN ('importing', 'downloading')` predicate). -/
def JobStatus.isActive : JobStatus → Bool
  | .downloading => true
  | .importing => true
  | _ => false

/-- One row of `import_history`, restricted to the columns the claims
are about. -/
structure JobRow where
  jobId : Nat
  status : JobStatus
  errorMessage : Option String
deriving DecidableEq, Repr

/-- `sanitizeImportStatus`: the startup routine runs
`UPDATE import_history SET status = 'failed', error_message = 'Interrupted'
WHERE status IN ('importing', 'downloading')`, i.e. it rewrites exactly
the active rows and leaves every other row untouched. -/
def sanitizeImportStatus (rows : List JobRow) : List JobRow :=
  rows.map fun r =>
    if r.status.isActive then
      { r with status := .failed, errorMessage := some "Interrupted" }
    else r

/-- Number of active rows in the table. -/
def activeCount (rows : List JobRow) : Nat :=
  rows.countP fun r => r.status.isActive

/-! ## Discovery: `discoverFileCount` -/

/-- The probe loop of `discoverFileCount`, started at index `i` with the
given fuel (the Go loop bound is `i < 100`, i.e. fuel 100 from index 0).
Returns the loop's result together with the list of indices actually
probed via HEAD requests.  A probe outcome `false` covers every exit the
Go code takes at index `i`: request-construction error, transport error,
or a non-200 status. -/
def discoverFrom (ok : Nat → Bool) : Nat → Nat → Nat × List Nat
  | i, 0 => (i, [])
  | i, fuel + 1 =>
    if ok i then
      let rest := discoverFrom ok (i + 1) fuel
      (rest.1, i :: rest.2)
    else (i, [i])

/-- `discoverFileCount`: result of the capped sequential probe. -/
def discoverFileCount (ok : Nat → Bool) : Nat :=
  (discoverFrom ok 0 100).1

/-- The indices `discoverFileCount` actually probes, in order. -/
def discoverProbes (ok : Nat → Bool) : List Nat :=
  (discoverFrom ok 0 100).2

/-! ## Payload files: `countTSVRows`, `truncateTSV` -/

/-- Newline count of `countTSVRows`: the Go loop scans the file in 32 KiB
chunks and counts `'\n'` bytes; chunking does not affect the count, so the
embedding counts over the whole byte list. -/
def countNewlines : List Nat → Nat
  | [] => 0
  | b :: bs => (if b = 10 then 1 else 0) + countNewlines bs

/-- `countTSVRows` returns `count - 1` as a Go `int`, hence `ℤ` here:
an empty file yields `-1`. -/
def countTSVRows (bytes : List Nat) : Int :=
  (countNewlines bytes : Int) - 1

/-- The pre-load accumulation in `createImport`:
`for _, f := range files { expectedTotalRows += countTSVRows(f.TSVPath) }`,
the sum then being persisted as `total_rows` before the first COPY. -/
def preloadExpectedTotal (files : List (List Nat)) : Int :=
  files.foldl (fun acc f => acc + countTSVRows f) 0

/-- `bufio.Reader.ReadBytes('\n')`: bytes up to and including the first
newline; if the stream ends first, the leftover bytes with an error flag
(`false` = error, mirroring `err != nil`). -/
def readLine : List Nat → List Nat × List Nat × Bool
  | [] => ([], [], false)
  | b :: bs =>
    if b = 10 then ([10], bs, true)
    else
      let rest := readLine bs
      (b :: rest.1, rest.2.1, rest.2.2)

/-- The copy loop of `truncateTSV`: `maxLines` iterations of
`ReadBytes('\n')`; on success the line is written and the loop continues,
on error the partial line is written (if non-empty) and the loop breaks. -/
def truncateLoop : Nat → List Nat → List Nat
  | 0, _ => []
  | n + 1, bs =>
    let r := readLine bs
    if r.2.2 then r.1 ++ truncateLoop n r.2.1
    else r.1

/-- `truncateTSV`: no-op for `maxLines <= 0`, otherwise the file is
replaced by the output of the copy loop. -/
def truncateTSV (maxLines : Int) (content : List Nat) : List Nat :=
  if maxLines ≤ 0 then content else truncateLoop maxLines.toNat content

/-- Serialize newline-free lines into file bytes, each line
newline-terminated. -/
def joinLines (lines : List (List Nat)) : List Nat :=
  (lines.map fun l => l ++ [10]).flatten

/-- A line of the payload: no interior newline byte. -/
def NoNewline (l : List Nat) : Prop := ∀ b ∈ l, b ≠ 10

instance : DecidablePred NoNewline := fun l =>
  decidable_of_iff (∀ b ∈ l, b ≠ 10) Iff.rfl

/-! ## Job creation: `createImport` -/

/-- The synchronous part of `createImport`'s response. -/
inductive CreateResponse where
  | conflict409
  | created201 (jobId : Nat)
deriving DecidableEq, Repr

/-- In-process orchestrator state: the global `currentJobID` pointer, the
`import_history` table, and the sequence feeding `gen_random_uuid()`
(job ids are modelled as naturals drawn from a counter). -/
structure OrchState where
  nextId : Nat
  currentJobID : Option Nat
  history : List JobRow
deriving DecidableEq, Repr

/-- State after `sanitizeImportStatus` on a fresh deployment: empty
history, no current job. -/
def initOrchState : OrchState :=
  { nextId := 0, currentJobID := none, history := [] }

/-- The synchronous prefix of `createImport` (`handlers.go`): refuse with
a 409 problem response while `currentJobID != nil`, otherwise insert one
`import_history` row with `status = 'downloading'` and answer 201 with
its job id.  The `limit` query parameter only configures the later
truncation step and does not influence this part. -/
def createImport (st : OrchState) (_limit : Nat) : OrchState × CreateResponse :=
  match st.currentJobID with
  | some _ => (st, .conflict409)
  | none =>
    let row : JobRow := { jobId := st.nextId, status := .downloading, errorMessage := none }
    ({ nextId := st.nextId + 1, currentJobID := some st.nextId, history := row :: st.history },
      .created201 st.nextId)

/-- Apply a sequence of create requests (each carrying its `limit`
parameter) from a given state. -/
def runCreates (st : OrchState) : List Nat → OrchState
  | [] => st
  | l :: ls => runCreates (createImport st l).1 ls

/-! ## ProgressTracker -/

/-- Mutable fields of `progressTracker` that `Read` touches.
`totalBytes` is the transfer's `ContentLength`, a Go `int64` that is
negative when the length is unknown. -/
structure PTState where
  totalBytes : Int
  bytesRead : Int
  lastUpdate : Nat
  lastPct : Int
deriving DecidableEq, Repr

/-- The percentage computation of `progressTracker.Read`: guarded by
`pt.totalBytes > 0`, so the division by `totalBytes` is evaluated only
when the total size is known (`none` = the division never happens). -/
def ptCurrentPct (totalBytes bytesRead : Int) : Option Int :=
  if 0 < totalBytes then some (bytesRead * 100 / totalBytes) else none

/-- One call of `progressTracker.Read` that obtained `n` fresh bytes at
instant `now` (ms): returns the updated tracker state and the emitted
`download_percentage` write, if any.  The emission condition is the
source's `pt.totalBytes > 0 && (currentPct >= pt.lastPct+5 ||
now.Sub(pt.lastUpdate) >= time.Second)`. -/
def ptRead (st : PTState) (n : Nat) (now : Nat) : PTState × Option Int :=
  let bytesRead := st.bytesRead + (n : Int)
  let currentPct := (ptCurrentPct st.totalBytes bytesRead).getD 0
  if 0 < st.totalBytes ∧ (st.lastPct + 5 ≤ currentPct ∨ 1000 ≤ now - st.lastUpdate) then
    ({ st with bytesRead := bytesRead, lastPct := currentPct, lastUpdate := now },
      some currentPct)
  else
    ({ st with bytesRead := bytesRead }, none)

/-- Initial tracker state for one file: `bytesRead` and `lastPct` are Go
zero values, `lastUpdate` is the creation instant `t0`. -/
def ptInit (totalBytes : Int) (t0 : Nat) : PTState :=
  { totalBytes := totalBytes, bytesRead := 0, lastUpdate := t0, lastPct := 0 }

/-- Run a whole download through the tracker: fold the reads (each a
byte delta with its instant) and collect the emitted percentage writes
in order. -/
def ptEmissions (st : PTState) : List (Nat × Nat) → List Int
  | [] => []
  | (n, now) :: rest =>
    let r := ptRead st n now
    match r.2 with
    | some pct => pct :: ptEmissions r.1 rest
    | none => ptEmissions r.1 rest

/-- One file of the download phase, as it affects `download_percentage`:
either found in the cache, or downloaded with the given read schedule. -/
inductive FileDl where
  | cached
  | fresh (totalBytes : Int) (t0 : Nat) (reads : List (Nat × Nat))
deriving Repr

/-- `download_percentage` writes performed for one file: the cached
branch writes `download_percentage = 100` directly; the download branch
writes whatever the tracker emits. -/
def fileDlPctWrites : FileDl → List Int
  | .cached => [100]
  | .fresh totalBytes t0 reads => ptEmissions (ptInit totalBytes t0) reads

/-- All `download_percentage` writes of a job's downloading phase, files
processed in index order. -/
def downloadPhasePctWrites (files : List FileDl) : List Int :=
  (files.map fileDlPctWrites).flatten

/-! ## Date discovery (`downloadNotesWithProgress`, lines 84-115) -/

/-- An HTTP request as the code constructs it (method and URL). -/
structure HttpRequest where
  method : String
  url : String
deriving DecidableEq, Repr

/-- The probe issued for a candidate date by the date-discovery loop:
`http.Get` of the index-0 archive, i.e. a GET request. -/
def dateProbeRequest (date : String) : HttpRequest :=
  { method := "GET",
    url := "https://ton.twimg.com/birdwatch-public-data/" ++ date ++ "/notes/notes-00000.zip" }

/-- The probe issued per index by `discoverFileCount`:
`http.NewRequestWithContext(ctx, "HEAD", url, nil)`. -/
def fileCountProbeRequest (date : String) (i : Nat) : HttpRequest :=
  { method := "HEAD",
    url := "https://ton.twimg.com/birdwatch-public-data/" ++ date ++ "/notes/notes-"
      ++ (String.mk (Nat.toDigits 10 i)) ++ ".zip" }

/-- The date-discovery loop: try `i = 0, 1, ..., lookbackDays - 1` days
ago and stop at the first date whose index-0 probe succeeds.  Returns
the selected days-ago offset together with the probes issued, in order
(`dateOf i` renders the date `i` days before now, as `getDateDaysAgo`
does). -/
def findLatestDate (dateOf : Nat → String) (probe : Nat → Bool) (lookbackDays : Nat) :
    Option Nat × List HttpRequest :=
  go 0 lookbackDays
where
  go (i fuel : Nat) : Option Nat × List HttpRequest :=
    match fuel with
    | 0 => (none, [])
    | fuel + 1 =>
      if probe i then (some i, [dateProbeRequest (dateOf i)])
      else
        let rest := go (i + 1) fuel
        (rest.1, dateProbeRequest (dateOf i) :: rest.2)

/-- The discovery prefix of `downloadNotesWithProgress`: find the latest
date (failing with the no-data error when the whole window fails), then
count the files for it (failing when the count is 0); on success return
the selected days-ago offset and the file count. -/
def downloadDiscovery (dateOf : Nat → String) (dateProbe : Nat → Bool)
    (fileOk : Nat → Nat → Bool) (lookbackDays : Nat) : Except String (Nat × Nat) :=
  match (findLatestDate dateOf dateProbe lookbackDays).1 with
  | none => .error ("no data files found in the last " ++ toString lookbackDays ++ " days")
  | some d =>
    let totalFiles := discoverFileCount (fileOk d)
    if totalFiles = 0 then .error ("no files found for date " ++ dateOf d)
    else .ok (d, totalFiles)

/-! ## Import phase: sampler lifecycle and `rows_processed` writes -/

/-- Observable events of the import loop that concern the sampling
goroutine's lifecycle (claim C9). -/
inductive ImportEv where
  | samplerStart
  | copyFile (i : Nat)
  | closeDone
  | markFailed
  | markCompleted
deriving DecidableEq, Repr

/-- The import loop of `createImport` after `TRUNCATE note` succeeds:
the sampler goroutine is started once, then each file is COPYed in
order; the first failing COPY closes `done` and marks the job failed;
if every COPY succeeds, `done` is closed once after the last file and
the job is marked completed.  `results i = true` means file `i`'s COPY
succeeds. -/
def importPhaseEvents (results : List Bool) : List ImportEv :=
  .samplerStart :: go 0 results
where
  go (i : Nat) : List Bool → List ImportEv
    | [] => [.closeDone, .markCompleted]
    | ok :: rest =>
      .copyFile i :: (if ok then go (i + 1) rest else [.closeDone, .markFailed])

/-- `rows_processed` writes of the importing phase.  Per file `i` the
sampler adds the in-flight `tuples_processed` samples to the cumulative
baseline (`cumulativeRows`, updated to the table's total row count after
each completed COPY); `samples` lists, per file, the in-flight counts
the sampler observed during that file's COPY. -/
def importRowsWrites (rowCounts : List Nat) (samples : List (List Nat)) : List Nat :=
  go 0 (rowCounts.zip samples)
where
  go (cum : Nat) : List (Nat × List Nat) → List Nat
    | [] => []
    | (rows, samp) :: rest => samp.map (cum + ·) ++ go (cum + rows) rest

/-! ## Abort endpoint -/

/-- Outcome of an abort request. -/
inductive AbortResponse where
  | noContent204
  | notFound404
deriving DecidableEq, Repr

/-- Modelled from the spec: no abort handler is present under `src/`
(no `POST /imports/{id}/abort` or `DELETE /imports/{id}` route is
registered in `main`), so this definition follows the spec's words:
"an external actor may request cancellation of the currently active Job
by id; this only succeeds (transitions to `failed`) if the Job is still
in a non-terminal state — requesting abort on an already-terminal Job is
reported as 'not found' rather than silently accepted", with "Request
cancellation; 204 on success, 404 if not currently active" and the
distinct failure reason "Aborted by user". -/
def abortImport (rows : List JobRow) (id : Nat) : List JobRow × AbortResponse :=
  match rows.find? (fun r => r.jobId = id) with
  | none => (rows, .notFound404)
  | some r =>
    if r.status.isActive then
      (rows.map fun q =>
        if q.jobId = id then
          { q with status := .failed, errorMessage := some "Aborted by user" }
        else q,
        .noContent204)
    else (rows, .notFound404)

/-! ## Helper lemmas -/

theorem countNewlines_append (a b : List Nat) :
    countNewlines (a ++ b) = countNewlines a + countNewlines b := by
  induction a with
  | nil => simp [countNewlines]
  | cons x xs ih => simp [countNewlines, ih]; omega

theorem countNewlines_eq_count (bs : List Nat) :
    countNewlines bs = bs.count 10 := by
  induction bs with
  | nil => simp [countNewlines]
  | cons b bs ih =>
    by_cases hb : b = 10
    · simp [countNewlines, ih, hb, List.count_cons]
      omega
    · simp [countNewlines, ih, hb, List.count_cons]

theorem countNewlines_of_noNewline (l : List Nat) (h : NoNewline l) :
    countNewlines l = 0 := by
  induction l with
  | nil => rfl
  | cons b bs ih =>
    have hb : b ≠ 10 := h b (by simp)
    have : NoNewline bs := fun x hx => h x (by simp [hx])
    simp [countNewlines, hb, ih this]

theorem countNewlines_joinLines (lines : List (List Nat))
    (h : ∀ l ∈ lines, NoNewline l) :
    countNewlines (joinLines lines) = lines.length := by
  induction lines with
  | nil => rfl
  | cons l ls ih =>
    have hl : NoNewline l := h l (by simp)
    have hls : ∀ x ∈ ls, NoNewline x := fun x hx => h x (by simp [hx])
    have hsplit : joinLines (l :: ls) = (l ++ [10]) ++ joinLines ls := by
      simp [joinLines]
    rw [hsplit, countNewlines_append, countNewlines_append,
      countNewlines_of_noNewline l hl, ih hls]
    simp [countNewlines]
    omega

theorem preloadExpectedTotal_go (files : List (List Nat)) (acc : Int) :
    files.foldl (fun a f => a + countTSVRows f) acc
      = acc + (files.map countTSVRows).sum := by
  induction files generalizing acc with
  | nil => simp
  | cons f fs ih => simp [ih]; ring

/-- Specification of the `discoverFileCount` probe loop, for any start
index and fuel. -/
theorem discoverFrom_spec (ok : Nat → Bool) (fuel i : Nat) :
    i ≤ (discoverFrom ok i fuel).1
    ∧ (discoverFrom ok i fuel).1 ≤ i + fuel
    ∧ (discoverFrom ok i fuel).2
        = List.range' i (min ((discoverFrom ok i fuel).1 - i + 1) fuel)
    ∧ (∀ j, i ≤ j → j < (discoverFrom ok i fuel).1 → ok j = true)
    ∧ ((discoverFrom ok i fuel).1 < i + fuel → ok (discoverFrom ok i fuel).1 = false) := by
  induction fuel generalizing i with
  | zero =>
    refine ⟨le_refl i, by simp [discoverFrom], by simp [discoverFrom], ?_, ?_⟩
    · intro j hij hji; simp [discoverFrom] at hji; omega
    · intro h; simp [discoverFrom] at h
  | succ fuel ih =>
    by_cases hok : ok i
    · obtain ⟨h1, h2, h3, h4, h5⟩ := ih (i + 1)
      have hres : discoverFrom ok i (fuel + 1)
          = ((discoverFrom ok (i + 1) fuel).1, i :: (discoverFrom ok (i + 1) fuel).2) := by
        simp [discoverFrom, hok]
      rw [hres]
      refine ⟨by omega, by omega, ?_, ?_, ?_⟩
      · rw [h3]
        have hmin : min ((discoverFrom ok (i + 1) fuel).1 - i + 1) (fuel + 1)
            = min ((discoverFrom ok (i + 1) fuel).1 - (i + 1) + 1) fuel + 1 := by
          omega
        rw [hmin, List.range'_succ]
      · intro j hij hji
        rcases Nat.eq_or_lt_of_le hij with rfl | hlt
        · exact hok
        · exact h4 j hlt hji
      · intro h; exact h5 (by omega)
    · have hres : discoverFrom ok i (fuel + 1) = (i, [i]) := by
        simp [discoverFrom, hok]
      rw [hres]
      refine ⟨le_refl i, by omega, ?_, ?_, ?_⟩
      · simp
      · intro j hij hji; omega
      · intro _; simpa using hok

theorem importPhaseEvents_go_counts (results : List Bool) (i : Nat) :
    (importPhaseEvents.go i results).count ImportEv.closeDone = 1
    ∧ (importPhaseEvents.go i results).count ImportEv.samplerStart = 0 := by
  induction results generalizing i with
  | nil => simp [importPhaseEvents.go]
  | cons ok rest ih =>
    by_cases hok : ok
    · simpa [importPhaseEvents.go, hok, List.count_cons] using ih (i + 1)
    · simp [importPhaseEvents.go, hok, List.count_cons]

theorem readLine_of_line (l rest : List Nat) (h : NoNewline l) :
    readLine (l ++ 10 :: rest) = (l ++ [10], rest, true) := by
  induction l with
  | nil => simp [readLine]
  | cons b bs ih =>
    have hb : b ≠ 10 := h b (by simp)
    have hbs : NoNewline bs := fun x hx => h x (by simp [hx])
    simp [readLine, hb, ih hbs]

theorem truncateLoop_joinLines (n : Nat) (lines : List (List Nat))
    (h : ∀ l ∈ lines, NoNewline l) :
    truncateLoop n (joinLines lines) = joinLines (lines.take n) := by
  induction n generalizing lines with
  | zero => simp [truncateLoop, joinLines]
  | succ n ih =>
    cases lines with
    | nil => simp [truncateLoop, joinLines, readLine]
    | cons l ls =>
      have hl : NoNewline l := h l (by simp)
      have hls : ∀ x ∈ ls, NoNewline x := fun x hx => h x (by simp [hx])
      have hsplit : joinLines (l :: ls) = l ++ 10 :: joinLines ls := by
        simp [joinLines]
      rw [hsplit]
      simp only [truncateLoop, readLine_of_line l (joinLines ls) hl]
      rw [ih ls hls]
      simp [joinLines]

/-- The invariant `createImport` maintains over the orchestrator state:
at most one active `import_history` row, and none at all while
`currentJobID` is nil. -/
def OrchInv (st : OrchState) : Prop :=
  activeCount st.history ≤ 1 ∧ (st.currentJobID = none → activeCount st.history = 0)

/-- A state is reachable when some sequence of create requests leads to
it from the post-startup state. -/
def Reachable (st : OrchState) : Prop :=
  ∃ reqs, runCreates initOrchState reqs = st

theorem createImport_preserves_inv (st : OrchState) (l : Nat) (h : OrchInv st) :
    OrchInv (createImport st l).1 := by
  cases hc : st.currentJobID with
  | some j => simpa [createImport, hc] using h
  | none =>
    have h0 : activeCount st.history = 0 := h.2 hc
    constructor
    · simp [createImport, hc, activeCount, List.countP_cons, JobStatus.isActive]
      simpa [activeCount] using h0.le
    · intro hnone
      simp [createImport, hc] at hnone

theorem runCreates_inv (reqs : List Nat) (st : OrchState) (h : OrchInv st) :
    OrchInv (runCreates st reqs) := by
  induction reqs generalizing st with
  | nil => simpa [runCreates] using h
  | cons l ls ih => exact ih _ (createImport_preserves_inv st l h)

/-- Specification of the date-probe loop for any start offset and
fuel. -/
theorem findLatestDate_go_spec (dateOf : Nat → String) (probe : Nat → Bool)
    (fuel i : Nat) :
    (∀ d, (findLatestDate.go dateOf probe i fuel).1 = some d →
      i ≤ d ∧ d < i + fuel ∧ probe d = true ∧ ∀ j, i ≤ j → j < d → probe j = false)
    ∧ ((findLatestDate.go dateOf probe i fuel).1 = none ↔
        ∀ j, i ≤ j → j < i + fuel → probe j = false)
    ∧ (findLatestDate.go dateOf probe i fuel).2
        = (List.range' i
            (match (findLatestDate.go dateOf probe i fuel).1 with
              | some d => d - i + 1
              | none => fuel)).map (fun j => dateProbeRequest (dateOf j)) := by
  induction fuel generalizing i with
  | zero =>
    refine ⟨?_, ?_, by simp [findLatestDate.go]⟩
    · intro d hd; simp [findLatestDate.go] at hd
    · simp [findLatestDate.go]; omega
  | succ fuel ih =>
    by_cases hp : probe i
    · have hres : findLatestDate.go dateOf probe i (fuel + 1)
          = (some i, [dateProbeRequest (dateOf i)]) := by
        simp [findLatestDate.go, hp]
      rw [hres]
      refine ⟨?_, ?_, ?_⟩
      · intro d hd
        simp only [Option.some.injEq] at hd
        subst hd
        exact ⟨le_refl i, by omega, hp, fun j h1 h2 => by omega⟩
      · constructor
        · intro h; exact absurd h (by simp)
        · intro hall
          have hfalse := hall i (le_refl i) (by omega)
          rw [hfalse] at hp
          exact absurd hp (by simp)
      · simp [List.range'_one]
    · obtain ⟨ih1, ih2, ih3⟩ := ih (i + 1)
      have hres : findLatestDate.go dateOf probe i (fuel + 1)
          = ((findLatestDate.go dateOf probe (i + 1) fuel).1,
              dateProbeRequest (dateOf i) :: (findLatestDate.go dateOf probe (i + 1) fuel).2) := by
        simp [findLatestDate.go, hp]
      rw [hres]
      refine ⟨?_, ?_, ?_⟩
      · intro d hd
        obtain ⟨hd1, hd2, hd3, hd4⟩ := ih1 d hd
        refine ⟨by omega, by omega, hd3, ?_⟩
        intro j h1 h2
        rcases Nat.eq_or_lt_of_le h1 with rfl | hlt
        · simpa using hp
        · exact hd4 j hlt h2
      · rw [ih2]
        constructor
        · intro hall j h1 h2
          rcases Nat.eq_or_lt_of_le h1 with rfl | hlt
          · simpa using hp
          · exact hall j hlt (by omega)
        · intro hall j h1 h2
          exact hall j (by omega) (by omega)
      · rw [ih3]
        cases hgo : (findLatestDate.go dateOf probe (i + 1) fuel).1 with
        | none =>
          simp only [hgo]
          rw [List.range'_succ]
          simp
        | some d =>
          have hd := (ih1 d hgo).1
          simp only [hgo]
          have harith : d - i + 1 = (d - (i + 1) + 1) + 1 := by omega
          rw [harith]
          simp [List.range'_succ]

theorem ptRead_fst (st : PTState) (n now : Nat) :
    ((ptRead st n now).1).totalBytes = st.totalBytes
    ∧ ((ptRead st n now).1).bytesRead = st.bytesRead + (n : Int) := by
  rw [ptRead]
  split <;> simp

theorem ptRead_emits_pct (st : PTState) (n now : Nat) (pct : Int) :
    (ptRead st n now).2 = some pct →
    0 < st.totalBytes ∧ pct = (st.bytesRead + (n : Int)) * 100 / st.totalBytes := by
  rw [ptRead]
  split
  · rename_i hcond
    intro h
    simp only [Option.some.injEq] at h
    subst h
    exact ⟨hcond.1, by simp [ptCurrentPct, hcond.1]⟩
  · intro h; simp at h

theorem ptEmissions_lower (reads : List (Nat × Nat)) :
    ∀ st : PTState, 0 < st.totalBytes →
      ∀ x ∈ ptEmissions st reads, st.bytesRead * 100 / st.totalBytes ≤ x := by
  induction reads with
  | nil => intro st _ x hx; simp [ptEmissions] at hx
  | cons r rest ih =>
    intro st hpos x hx
    obtain ⟨htot, hbytes⟩ := ptRead_fst st r.1 r.2
    have hmono : st.bytesRead * 100 / st.totalBytes
        ≤ (st.bytesRead + (r.1 : Int)) * 100 / st.totalBytes := by
      apply Int.ediv_le_ediv hpos
      have : (0 : Int) ≤ (r.1 : Int) := Int.natCast_nonneg r.1
      nlinarith
    rw [ptEmissions] at hx
    rcases hemit : (ptRead st r.1 r.2).2 with - | pct
    · rw [hemit] at hx
      have := ih (ptRead st r.1 r.2).1 (by rw [htot]; exact hpos) x hx
      rw [htot, hbytes] at this
      omega
    · rw [hemit] at hx
      rcases List.mem_cons.mp hx with rfl | hx2
      · have := (ptRead_emits_pct st r.1 r.2 x hemit).2
        omega
      · have := ih (ptRead st r.1 r.2).1 (by rw [htot]; exact hpos) x hx2
        rw [htot, hbytes] at this
        omega

theorem ptEmissions_chain (reads : List (Nat × Nat)) :
    ∀ st : PTState, List.Chain' (· ≤ ·) (ptEmissions st reads) := by
  induction reads with
  | nil => intro st; simp [ptEmissions]
  | cons r rest ih =>
    intro st
    rw [ptEmissions]
    rcases hemit : (ptRead st r.1 r.2).2 with - | pct
    · exact ih _
    · rw [List.chain'_cons']
      refine ⟨?_, ih _⟩
      intro b hb
      have hbmem : b ∈ ptEmissions (ptRead st r.1 r.2).1 rest :=
        List.mem_of_mem_head? hb
      obtain ⟨hpos, hpct⟩ := ptRead_emits_pct st r.1 r.2 pct hemit
      obtain ⟨htot, hbytes⟩ := ptRead_fst st r.1 r.2
      have := ptEmissions_lower rest (ptRead st r.1 r.2).1 (by rw [htot]; exact hpos) b hbmem
      rw [htot, hbytes] at this
      omega

theorem importRowsWrites_go_lower (L : List (Nat × List Nat)) :
    ∀ (cum : Nat), ∀ x ∈ importRowsWrites.go cum L, cum ≤ x := by
  induction L with
  | nil => intro cum x hx; simp [importRowsWrites.go] at hx
  | cons p rest ih =>
    intro cum x hx
    rw [importRowsWrites.go] at hx
    rcases List.mem_append.mp hx with h1 | h2
    · obtain ⟨s, _, rfl⟩ := List.mem_map.mp h1
      omega
    · have := ih (cum + p.1) x h2
      omega

theorem importRowsWrites_go_chain (L : List (Nat × List Nat))
    (h : ∀ p ∈ L, List.Chain' (· ≤ ·) p.2 ∧ ∀ s ∈ p.2, s ≤ p.1) :
    ∀ cum : Nat, List.Chain' (· ≤ ·) (importRowsWrites.go cum L) := by
  induction L with
  | nil => intro cum; simp [importRowsWrites.go]
  | cons p rest ih =>
    intro cum
    rw [importRowsWrites.go]
    obtain ⟨hchain, hbound⟩ := h p (by simp)
    have hrest : ∀ q ∈ rest, List.Chain' (· ≤ ·) q.2 ∧ ∀ s ∈ q.2, s ≤ q.1 :=
      fun q hq => h q (by simp [hq])
    refine List.Chain'.append ?_ (ih hrest (cum + p.1)) ?_
    · exact (List.chain'_map _).mpr (hchain.imp fun a b hab => by omega)
    · intro x hx y hy
      have hxmem : x ∈ p.2.map (cum + ·) := by
        obtain ⟨hne, hxe⟩ := List.mem_getLast?_eq_getLast hx
        rw [hxe]
        exact List.getLast_mem hne
      obtain ⟨s, hs, rfl⟩ := List.mem_map.mp hxmem
      have hymem : y ∈ importRowsWrites.go (cum + p.1) rest := List.mem_of_mem_head? hy
      have h1 := importRowsWrites_go_lower rest (cum + p.1) y hymem
      have h2 := hbound s hs
      omega

/-! ## Claims -/

/-- C3: after `sanitizeImportStatus` runs on any set of `import_history`
rows, no row is left in `downloading` or `importing`; every row that had
one of those statuses is now `failed` with `error_message =
'Interrupted'` (its identity preserved), and every row that was already
terminal (`completed` or `failed` — indeed any inactive row) is
unchanged. -/
theorem sanitizeImportStatus_correct (rows : List JobRow) :
    (∀ r ∈ sanitizeImportStatus rows, r.status.isActive = false)
    ∧ (sanitizeImportStatus rows).length = rows.length
    ∧ ∀ i (h : i < rows.length) (h2 : i < (sanitizeImportStatus rows).length),
        ((rows.get ⟨i, h⟩).status.isActive = true →
          (sanitizeImportStatus rows).get ⟨i, h2⟩
            = { rows.get ⟨i, h⟩ with
                status := .failed, errorMessage := some "Interrupted" })
        ∧ ((rows.get ⟨i, h⟩).status.isActive = false →
          (sanitizeImportStatus rows).get ⟨i, h2⟩ = rows.get ⟨i, h⟩) := by
  refine ⟨?_, by simp [sanitizeImportStatus], ?_⟩
  · intro r hr
    simp only [sanitizeImportStatus, List.mem_map] at hr
    obtain ⟨a, _, rfl⟩ := hr
    cases hs : a.status <;> simp [JobStatus.isActive, hs]
  · intro i h h2
    have hmap : (sanitizeImportStatus rows).get ⟨i, h2⟩
        = (fun r : JobRow =>
            if r.status.isActive then
              { r with status := .failed, errorMessage := some "Interrupted" }
            else r)
          (rows.get ⟨i, h⟩) := by
      simp [sanitizeImportStatus, List.get_eq_getElem, List.getElem_map]
    constructor <;> intro hact <;> rw [hmap] <;>
      simp only [List.get_eq_getElem] at hact ⊢ <;> simp [hact]

/-- Witness for C3 on a concrete two-row table (one `importing`, one
`completed`). -/
theorem sanitizeImportStatus_correct_witness :
    (sanitizeImportStatus
        [{ jobId := 3, status := .importing, errorMessage := none },
         { jobId := 4, status := .completed, errorMessage := none }]).get ⟨0, by decide⟩
      = { jobId := 3, status := .failed, errorMessage := some "Interrupted" } :=
  ((sanitizeImportStatus_correct
      [{ jobId := 3, status := .importing, errorMessage := none },
       { jobId := 4, status := .completed, errorMessage := none }]).2.2
    0 (by decide) (by decide)).1 (by decide)

/-- C5: `discoverFileCount` probes indices `0, 1, 2, ...` strictly
sequentially (its probe list is an initial range), returns the first
index whose probe fails — the length of the initial contiguous run of
existing files — never probes past index 99, returns at most 100, and a
returned count of 0 makes the download phase fail with the
no-files-found error. -/
theorem discoverFileCount_correct (ok : Nat → Bool) :
    discoverFileCount ok ≤ 100
    ∧ (∀ j ∈ discoverProbes ok, j ≤ 99)
    ∧ discoverProbes ok = List.range (min (discoverFileCount ok + 1) 100)
    ∧ (∀ i, i < discoverFileCount ok → ok i = true)
    ∧ (discoverFileCount ok < 100 → ok (discoverFileCount ok) = false)
    ∧ (∀ (dateOf : Nat → String) (dateProbe : Nat → Bool) (fileOk : Nat → Nat → Bool)
        (lookbackDays d : Nat),
        (findLatestDate dateOf dateProbe lookbackDays).1 = some d →
        discoverFileCount (fileOk d) = 0 →
        downloadDiscovery dateOf dateProbe fileOk lookbackDays
          = .error ("no files found for date " ++ dateOf d)) := by
  obtain ⟨h1, h2, h3, h4, h5⟩ := discoverFrom_spec ok 100 0
  refine ⟨by simpa [discoverFileCount] using h2, ?_, ?_, ?_, ?_, ?_⟩
  · intro j hj
    rw [discoverProbes, h3] at hj
    have := List.mem_range'.mp hj
    omega
  · rw [discoverProbes, h3, List.range_eq_range']
    simp [discoverFileCount]
  · intro i hi
    exact h4 i (Nat.zero_le i) hi
  · intro h
    exact h5 (by simpa [discoverFileCount] using h)
  · intro dateOf dateProbe fileOk lookbackDays d hfind hzero
    simp [downloadDiscovery, hfind, hzero]

/-- Witness for C5 with a remote that has exactly 3 contiguous files
(probes for indices 0, 1, 2 succeed; index 3 does not). -/
theorem discoverFileCount_correct_witness :
    discoverFileCount (fun i => decide (i < 3)) < 100
    ∧ (fun i => decide (i < 3)) (discoverFileCount (fun i => decide (i < 3))) = false :=
  ⟨by decide, (discoverFileCount_correct (fun i => decide (i < 3))).2.2.2.2.1 (by decide)⟩

/-- C9: for every run of the import phase, the progress-sampling
goroutine is started exactly once per job, and the `done` channel is
closed exactly once on every execution path — after the last file when
every COPY succeeds, or on the failing file's error path — never
twice. -/
theorem importPhase_sampler_lifecycle (results : List Bool) :
    (importPhaseEvents results).count ImportEv.samplerStart = 1
    ∧ (importPhaseEvents results).count ImportEv.closeDone = 1
    ∧ ((∀ r ∈ results, r = true) →
        importPhaseEvents results
          = ImportEv.samplerStart
              :: (List.range results.length).map ImportEv.copyFile
              ++ [ImportEv.closeDone, ImportEv.markCompleted]) := by
  obtain ⟨hclose, hstart⟩ := importPhaseEvents_go_counts results 0
  refine ⟨by simp [importPhaseEvents, List.count_cons, hstart], ?_, ?_⟩
  · simp [importPhaseEvents, List.count_cons, hclose]
  · intro hall
    simp only [importPhaseEvents, List.range_eq_range']
    congr 1
    have : ∀ (rs : List Bool) (i : Nat), (∀ r ∈ rs, r = true) →
        importPhaseEvents.go i rs
          = (List.range' i rs.length).map ImportEv.copyFile
              ++ [ImportEv.closeDone, ImportEv.markCompleted] := by
      intro rs
      induction rs with
      | nil => intro i _; simp [importPhaseEvents.go]
      | cons ok rest ih =>
        intro i hall
        have hok : ok = true := hall ok (by simp)
        simp [importPhaseEvents.go, hok, ih (i + 1) fun r hr => hall r (by simp [hr]),
          List.range'_succ]
    exact this results 0 hall

/-- Witness for C9 on a three-file job whose COPYs all succeed. -/
theorem importPhase_sampler_lifecycle_witness :
    importPhaseEvents [true, true, true]
      = ImportEv.samplerStart
          :: (List.range 3).map ImportEv.copyFile
          ++ [ImportEv.closeDone, ImportEv.markCompleted] :=
  (importPhase_sampler_lifecycle [true, true, true]).2.2 (by decide)

/-- C10: `countTSVRows` returns the number of newline bytes minus one —
hence `-1` on an empty file; a final line without a trailing newline is
not counted (a payload of `k` newline-terminated lines plus a trailing
fragment yields `k - 1`); and the expected total persisted before the
load is the sum of these per-file values. -/
theorem countTSVRows_correct :
    (∀ bytes : List Nat, countTSVRows bytes = (bytes.count 10 : Int) - 1)
    ∧ countTSVRows [] = -1
    ∧ (∀ (lines : List (List Nat)) (frag : List Nat),
        (∀ l ∈ lines, NoNewline l) → NoNewline frag →
        countTSVRows (joinLines lines ++ frag) = (lines.length : Int) - 1)
    ∧ (∀ files : List (List Nat),
        preloadExpectedTotal files = (files.map countTSVRows).sum) := by
  refine ⟨?_, by decide, ?_, ?_⟩
  · intro bytes; rw [countTSVRows, countNewlines_eq_count]
  · intro lines frag hlines hfrag
    rw [countTSVRows, countNewlines_append, countNewlines_joinLines lines hlines,
      countNewlines_of_noNewline frag hfrag]
    simp
  · intro files
    simpa using preloadExpectedTotal_go files 0

/-- Witness for C10: a file of two newline-terminated lines plus an
unterminated fragment counts 1 expected row. -/
theorem countTSVRows_correct_witness :
    countTSVRows (joinLines [[104], [97]] ++ [98, 99]) = 1 :=
  countTSVRows_correct.2.2.1 [[104], [97]] [98, 99] (by decide) (by decide)

/-- C1: in every state reachable by a sequence of create requests from
the post-startup state, at most one `import_history` row is active; a
create arriving while a job is active gets the 409 conflict response and
changes nothing (no row inserted), and a create arriving while no job is
active inserts exactly one new row with status `downloading` and gets
the 201 response carrying its job id. -/
theorem createImport_single_active (st : OrchState) (h : Reachable st) (limit : Nat) :
    activeCount st.history ≤ 1
    ∧ (st.currentJobID = none → activeCount st.history = 0)
    ∧ (∀ j, st.currentJobID = some j →
        (createImport st limit).2 = .conflict409 ∧ (createImport st limit).1 = st)
    ∧ (st.currentJobID = none →
        (createImport st limit).2 = .created201 st.nextId
        ∧ (createImport st limit).1.history
            = { jobId := st.nextId, status := .downloading, errorMessage := none }
                :: st.history
        ∧ activeCount (createImport st limit).1.history = 1) := by
  obtain ⟨reqs, rfl⟩ := h
  have hinv : OrchInv (runCreates initOrchState reqs) :=
    runCreates_inv reqs initOrchState (by constructor <;> simp [initOrchState, activeCount])
  refine ⟨hinv.1, hinv.2, ?_, ?_⟩
  · intro j hj
    simp [createImport, hj]
  · intro hn
    have h0 := hinv.2 hn
    refine ⟨by simp [createImport, hn], by simp [createImport, hn], ?_⟩
    simp [createImport, hn, activeCount, List.countP_cons, JobStatus.isActive]
    simpa [activeCount] using h0

/-- Witness for C1: after one successful create, a second create is
refused with 409. -/
theorem createImport_single_active_witness :
    (createImport (runCreates initOrchState [5]) 0).2 = CreateResponse.conflict409 :=
  ((createImport_single_active (runCreates initOrchState [5]) ⟨[5], rfl⟩ 0).2.2.1
    0 (by decide)).1

/-- C2 as stated is false: `truncateTSV` copies the first `maxLines`
lines of the file including the header, so on the claim's own instance —
a payload of one header plus 1000 data lines truncated with `limit = 10`
— the result is the first 10 lines (header + 9 data lines, 10 newline
bytes), not header + 10 data lines. -/
theorem truncateTSV_counterexample :
    truncateTSV 10 (joinLines ([104] :: List.replicate 1000 [100]))
      ≠ joinLines ([104] :: List.replicate 10 [100])
    ∧ countNewlines (truncateTSV 10 (joinLines ([104] :: List.replicate 1000 [100]))) = 10 := by
  have hno : ∀ n, ∀ l ∈ [104] :: List.replicate n [100], NoNewline l := by
    intro n l hl
    rcases List.mem_cons.mp hl with rfl | hmem
    · decide
    · rw [List.eq_of_mem_replicate hmem]; decide
  have htr : truncateTSV 10 (joinLines ([104] :: List.replicate 1000 [100]))
      = joinLines ([104] :: List.replicate 9 [100]) := by
    rw [truncateTSV, if_neg (by decide)]
    have h10 : (10 : Int).toNat = 10 := by decide
    rw [h10, truncateLoop_joinLines 10 _ (hno 1000)]
    congr 1
  have h9 : countNewlines (joinLines ([104] :: List.replicate 9 [100])) = 10 := by
    rw [countNewlines_joinLines _ (hno 9)]; simp
  have h11 : countNewlines (joinLines ([104] :: List.replicate 10 [100])) = 11 := by
    rw [countNewlines_joinLines _ (hno 10)]; simp
  refine ⟨?_, by rw [htr, h9]⟩
  intro heq
  rw [htr] at heq
  have hc := congrArg countNewlines heq
  rw [h9, h11] at hc
  exact absurd hc (by decide)

/-- C2 (amended): for a payload of newline-terminated lines (one header
followed by data lines) and any requested limit `N > 0`, `truncateTSV`
leaves the file containing exactly the first `N` lines — the header plus
the first `N - 1` data lines; in particular header + 1000 data lines
with `limit = 10` leaves header + 9 data lines. -/
theorem truncateTSV_correct (lines : List (List Nat)) (N : Nat)
    (h : ∀ l ∈ lines, NoNewline l) (hN : 0 < N) :
    truncateTSV (N : Int) (joinLines lines) = joinLines (lines.take N) := by
  have hneg : ¬ ((N : Int) ≤ 0) := by
    have : (0 : Int) < (N : Int) := by exact_mod_cast hN
    omega
  rw [truncateTSV, if_neg hneg, Int.toNat_natCast]
  exact truncateLoop_joinLines N lines h

/-- Witness for C2 (amended) on the claim's instance: header + 1000 data
lines, `limit = 10`, leaving the first 10 lines. -/
theorem truncateTSV_correct_witness :
    truncateTSV (10 : Int) (joinLines ([104] :: List.replicate 1000 [100]))
      = joinLines (([104] :: List.replicate 1000 [100]).take 10) :=
  truncateTSV_correct ([104] :: List.replicate 1000 [100]) 10
    (by
      intro l hl
      rcases List.mem_cons.mp hl with rfl | hmem
      · decide
      · rw [List.eq_of_mem_replicate hmem]; decide)
    (by decide)

/-- C4: `progressTracker.Read` emits its observation exactly when the
total size is known and the percentage has advanced by at least 5 points
since the last emission or at least one second has elapsed since the
last emission; when the declared length is absent or non-positive it
emits nothing and the percentage computation (the division by
`totalBytes`) never happens. -/
theorem ptRead_emission (st : PTState) (n now : Nat) :
    (0 < st.totalBytes →
      ((ptRead st n now).2.isSome = true ↔
        (st.lastPct + 5 ≤ (st.bytesRead + (n : Int)) * 100 / st.totalBytes
          ∨ 1000 ≤ now - st.lastUpdate)))
    ∧ (st.totalBytes ≤ 0 →
      (ptRead st n now).2 = none
        ∧ ptCurrentPct st.totalBytes (st.bytesRead + (n : Int)) = none) := by
  constructor
  · intro hpos
    by_cases hc : (st.lastPct + 5 ≤ (st.bytesRead + (n : Int)) * 100 / st.totalBytes
        ∨ 1000 ≤ now - st.lastUpdate) <;>
      simp [ptRead, ptCurrentPct, hpos, hc]
  · intro hneg
    have hnp : ¬ (0 < st.totalBytes) := not_lt.mpr hneg
    simp [ptRead, ptCurrentPct, hnp]

/-- Witness for C4: a known 100-byte total with 50 bytes read advances
the percentage from 0 to 50 and triggers an emission. -/
theorem ptRead_emission_witness :
    ((ptRead { totalBytes := 100, bytesRead := 0, lastUpdate := 0, lastPct := 0 }
        50 0).2).isSome = true :=
  ((ptRead_emission { totalBytes := 100, bytesRead := 0, lastUpdate := 0, lastPct := 0 }
      50 0).1 (by decide)).mpr (Or.inl (by decide))

/-- C6 is false as stated on its probe mechanism: the date-discovery
loop issues plain `http.Get` requests — full GET transfers whose bodies
are discarded unread — not bodiless HEAD existence checks; every probe
of a 7-day window that finds nothing is a GET request (the repository's
actual no-body-transfer probe, the HEAD request, is used only by
`discoverFileCount`). -/
theorem findLatestDate_counterexample :
    ((findLatestDate (fun i => toString i) (fun _ => false) 7).2.map
        HttpRequest.method) = List.replicate 7 "GET"
    ∧ ("GET" : String) ≠ "HEAD"
    ∧ (fileCountProbeRequest "2024/01/10" 0).method = "HEAD" := by
  refine ⟨by decide, by decide, rfl⟩

/-- C6 (amended): the date-discovery step tries today first and walks
backward one day at a time for up to `lookbackDays` days, probing only
file index 0 of each date — via a GET request of the index-0 archive
whose response body is closed without being read (only the status code
is consulted), not a bodiless HEAD check; it selects the first (most
recent) date whose probe succeeds, and if no date in the window succeeds
the download phase fails with the no-data-found error rather than
continuing with an arbitrary date. -/
theorem findLatestDate_correct (dateOf : Nat → String) (probe : Nat → Bool)
    (fileOk : Nat → Nat → Bool) (lookbackDays : Nat) :
    (∀ d, (findLatestDate dateOf probe lookbackDays).1 = some d →
      d < lookbackDays ∧ probe d = true ∧ ∀ j, j < d → probe j = false)
    ∧ ((findLatestDate dateOf probe lookbackDays).1 = none →
      (∀ j, j < lookbackDays → probe j = false)
      ∧ downloadDiscovery dateOf probe fileOk lookbackDays
          = .error ("no data files found in the last " ++ toString lookbackDays ++ " days"))
    ∧ (findLatestDate dateOf probe lookbackDays).2
        = (List.range
            (match (findLatestDate dateOf probe lookbackDays).1 with
              | some d => d + 1
              | none => lookbackDays)).map (fun j => dateProbeRequest (dateOf j))
    ∧ (∀ j, (dateProbeRequest (dateOf j)).method = "GET"
        ∧ (dateProbeRequest (dateOf j)).url
            = "https://ton.twimg.com/birdwatch-public-data/" ++ dateOf j
                ++ "/notes/notes-00000.zip") := by
  obtain ⟨h1, h2, h3⟩ := findLatestDate_go_spec dateOf probe lookbackDays 0
  refine ⟨?_, ?_, ?_, fun j => ⟨rfl, rfl⟩⟩
  · intro d hd
    obtain ⟨_, hlt, hp, hfirst⟩ := h1 d hd
    exact ⟨by omega, hp, fun j hj => hfirst j (Nat.zero_le j) hj⟩
  · intro hnone
    refine ⟨fun j hj => h2.mp hnone j (Nat.zero_le j) (by omega), ?_⟩
    simp [downloadDiscovery, findLatestDate] at hnone ⊢
    rw [hnone]
  · have hmain : findLatestDate dateOf probe lookbackDays
        = findLatestDate.go dateOf probe 0 lookbackDays := rfl
    rw [hmain, h3, List.range_eq_range']
    cases hgo : (findLatestDate.go dateOf probe 0 lookbackDays).1 with
    | none => rfl
    | some d => simp

/-- Witness for C6 (amended) where only the probe two days back
succeeds: that date is selected after probing days 0 and 1. -/
theorem findLatestDate_correct_witness :
    (2 < 7 ∧ (fun i => decide (i = 2)) 2 = true
      ∧ ∀ j, j < 2 → (fun i => decide (i = 2)) j = false) :=
  (findLatestDate_correct (fun i => toString i) (fun i => decide (i = 2))
      (fun _ _ => true) 7).1 2 (by decide)

/-- C7 is false as stated: across the files of one job the
`download_percentage` writes are not monotone — a job whose first file
is cached (written as 100) and whose second file is freshly downloaded
re-emits a small percentage for the new file, so the write sequence
decreases (here 100 followed by 10). -/
theorem downloadPct_counterexample :
    downloadPhasePctWrites [FileDl.cached, FileDl.fresh 1000 0 [(100, 0)]] = [100, 10]
    ∧ ¬ List.Chain' (· ≤ ·)
        (downloadPhasePctWrites [FileDl.cached, FileDl.fresh 1000 0 [(100, 0)]]) := by
  have h : downloadPhasePctWrites [FileDl.cached, FileDl.fresh 1000 0 [(100, 0)]]
      = [100, 10] := by decide
  refine ⟨h, ?_⟩
  rw [h]
  intro hchain
  rw [List.chain'_cons] at hchain
  exact absurd hchain.1 (by decide)

/-- C7 (amended): within a single phase of a single job the persisted
progress fields are monotone per progress stream — the `rows_processed`
writes of the whole importing phase never decrease (the sampler adds
in-flight counts to the cumulative baseline of fully loaded files), and
the `download_percentage` writes never decrease within any single file's
download; across file boundaries of the downloading phase the
percentage restarts for the new file and may decrease. -/
theorem progress_monotonic (f : FileDl) (rowCounts : List Nat)
    (samples : List (List Nat))
    (h : ∀ p ∈ rowCounts.zip samples,
      List.Chain' (· ≤ ·) p.2 ∧ ∀ s ∈ p.2, s ≤ p.1) :
    List.Chain' (· ≤ ·) (fileDlPctWrites f)
    ∧ List.Chain' (· ≤ ·) (importRowsWrites rowCounts samples) := by
  constructor
  · cases f with
    | cached => simp [fileDlPctWrites]
    | fresh totalBytes t0 reads => exact ptEmissions_chain reads (ptInit totalBytes t0)
  · exact importRowsWrites_go_chain (rowCounts.zip samples) h 0

/-- Witness for C7 (amended): a two-file import with admissible per-file
sampler observations yields monotone `rows_processed` writes. -/
theorem progress_monotonic_witness :
    List.Chain' (· ≤ ·) (importRowsWrites [3, 5] [[1, 3], [2, 5]]) :=
  (progress_monotonic FileDl.cached [3, 5] [[1, 3], [2, 5]]
    (by
      intro p hp
      fin_cases hp <;>
        exact ⟨by simp [List.chain'_cons], by decide⟩)).2

/-- C8 (modelled from the spec, the abort handler being absent from
`src/`): an abort request for job `id` succeeds with 204 and transitions
that job to `failed` exactly when the job exists and is still
non-terminal; aborting a job that is not currently active (unknown or
already terminal) answers 404 and changes nothing. -/
theorem abortImport_correct (rows : List JobRow) (id : Nat)
    (huniq : (rows.map JobRow.jobId).Nodup) :
    ((abortImport rows id).2 = .noContent204 ↔
      ∃ r ∈ rows, r.jobId = id ∧ r.status.isActive = true)
    ∧ ((abortImport rows id).2 = .noContent204 →
      ∀ r2 ∈ (abortImport rows id).1, r2.jobId = id →
        r2.status = .failed ∧ r2.errorMessage = some "Aborted by user")
    ∧ ((abortImport rows id).2 = .notFound404 → (abortImport rows id).1 = rows) := by
  have hinj := List.inj_on_of_nodup_map huniq
  refine ⟨?_, ?_, ?_⟩
  · cases hfind : rows.find? (fun r => r.jobId = id) with
    | none =>
      rw [abortImport, hfind]
      simp only [iff_iff_implies_and_implies]
      constructor
      · intro h; exact absurd h (by simp)
      · rintro ⟨r, hr, hid, hact⟩
        have := List.find?_eq_none.mp hfind r hr
        simp [hid] at this
    | some r =>
      have hrid : r.jobId = id := by
        have := List.find?_some hfind
        simpa using this
      have hrmem : r ∈ rows := List.mem_of_find?_eq_some hfind
      by_cases hact : r.status.isActive
      · rw [abortImport, hfind]
        simp only [hact, if_true]
        exact ⟨fun _ => ⟨r, hrmem, hrid, hact⟩, fun _ => by trivial⟩
      · rw [abortImport, hfind]
        simp only [hact, if_false]
        constructor
        · intro h; exact absurd h (by simp)
        · rintro ⟨q, hq, hqid, hqact⟩
          have hqr : q = r := hinj hq hrmem (by rw [hqid, hrid])
          rw [hqr] at hqact
          exact absurd hqact (by simp [hact])
  · intro h204 r2 hr2 hr2id
    cases hfind : rows.find? (fun r => r.jobId = id) with
    | none => rw [abortImport, hfind] at h204; simp at h204
    | some r =>
      by_cases hact : r.status.isActive
      · rw [abortImport, hfind] at hr2
        simp only [hact, if_true] at hr2
        obtain ⟨q, _, rfl⟩ := List.mem_map.mp hr2
        by_cases hq : q.jobId = id
        · simp [hq]
        · simp [hq] at hr2id
      · rw [abortImport, hfind] at h204
        simp [hact] at h204
  · intro h404
    cases hfind : rows.find? (fun r => r.jobId = id) with
    | none => rw [abortImport, hfind]
    | some r =>
      by_cases hact : r.status.isActive
      · rw [abortImport, hfind] at h404
        simp [hact] at h404
      · rw [abortImport, hfind]
        simp [hact]

/-- Witness for C8: aborting the single active job answers 204. -/
theorem abortImport_correct_witness :
    (abortImport [{ jobId := 1, status := .importing, errorMessage := none }] 1).2
      = AbortResponse.noContent204 :=
  (abortImport_correct [{ jobId := 1, status := .importing, errorMessage := none }] 1
      (by decide)).1.mpr
    ⟨{ jobId := 1, status := .importing, errorMessage := none }, by decide, by decide, by decide⟩

end XCN
